import Mathlib

/-!
Verification of the gorapid OAuth2 REST client (rapid.go).

Shallow embedding conventions:
* Go `time.Time` instants are modelled as `Int` seconds; `time.Now()` becomes
  an explicit `now : Instant` argument threaded to each operation that reads
  the clock.
* The HTTP transport is modelled by explicit environment values describing
  what the network would answer (`TokenNetResult` for the `/token` endpoint,
  `Option TargetResp` for the target request).
* The mutable `*RapidClient` receiver is modelled by explicit state passing:
  each method returns the updated client record.
* Every operation additionally returns the list of network interactions it
  performed (`NetCall`), so that claims about which exchanges happen, with
  which grant and in which order, are statable.
-/

namespace GoRapid

/-- Go `time.Time`, modelled as an absolute instant in whole seconds. -/
abbrev Instant := Int

/-- The `Token` struct of rapid.go: access token value, advertised lifetime in
seconds, token type, optional refresh token, and absolute expiry instant. -/
structure Token where
  value : String
  expiresIn : Int
  tokenType : String
  refreshToken : String
  expireTime : Instant
deriving DecidableEq, Repr

/-- `NewToken` of rapid.go: the expiry is the creation instant plus the
lifetime (`time.Now().Add(time.Duration(expiresIn) * time.Second)`). -/
def NewToken (value : String) (expiresIn : Int) (tokenType refreshToken : String)
    (now : Instant) : Token :=
  { value := value, expiresIn := expiresIn, tokenType := tokenType,
    refreshToken := refreshToken, expireTime := now + expiresIn }

/-- `Token.GetAuthorizationHeader` of rapid.go: `fmt.Sprintf("%s %s", ...)`. -/
def Token.GetAuthorizationHeader (t : Token) : String :=
  t.tokenType ++ " " ++ t.value

/-- `Token.IsValid` of rapid.go: `time.Now().Before(t.ExpireTime)`, i.e. the
current instant is strictly before the expiry instant. -/
def Token.IsValid (t : Token) (now : Instant) : Bool :=
  decide (now < t.expireTime)

/-- The error values of rapid.go. `ensureToken`, `urlParse`, `marshalBody`,
`createRequest` and `sendRequest` stand for the wrapped `fmt.Errorf` errors
produced inside `Request`; `tokenGeneration` and `unexpectedStatus` are
`ErrTokenGeneration` and `ErrUnexpectedStatus`, `invalidConfig` is
`ErrInvalidConfig`. -/
inductive GoError where
  | invalidConfig
  | tokenGeneration
  | unexpectedStatus (code : Nat)
  | ensureToken (inner : GoError)
  | urlParse
  | marshalBody
  | createRequest
  | sendRequest
deriving DecidableEq, Repr

/-- Constant `clientCredentialsGrant` of rapid.go. -/
def clientCredentialsGrant : String := "client_credentials"

/-- Constant `jwtBearerGrant` of rapid.go. -/
def jwtBearerGrant : String := "urn:ietf:params:oauth:grant-type:jwt-bearer"

/-- Constant `tokenEndpoint` of rapid.go. -/
def tokenEndpoint : String := "/token"

/-- Constant `contentTypeJSON` of rapid.go. -/
def contentTypeJSON : String := "application/json"

/-- The `RapidClient` struct of rapid.go (the `*http.Client` transport handle
carries no modelled state; its behaviour lives in the environment values). -/
structure RapidClient where
  baseURL : String
  key : String
  secret : String
  userWebToken : String
  token : Option Token
  xAuthorization : String
deriving DecidableEq, Repr

/-- A network interaction recorded in an operation trace: either an invocation
of the credential exchange (`generateOrRefreshToken`) with its `isRefresh`
flag, token URL and form parameters, or the dispatch of the target request
with its method, resolved URL, headers and body-presence flag. -/
inductive NetCall where
  | tokenExchange (isRefresh : Bool) (url : String) (params : List (String × String))
  | targetCall (method url : String) (headers : List (String × String)) (hasBody : Bool)
deriving DecidableEq, Repr

/-- `strings.TrimRight(s, "/")`: drop every trailing slash. -/
def trimRightSlashes (s : String) : String :=
  String.mk (s.data.reverse.dropWhile (fun c => decide (c = '/'))).reverse

/-- `NewRapidClient` of rapid.go. The four environment variables
(`RAPID_BASE_URL`, `RAPID_KEY`, `RAPID_SECRET`, `RAPID_USER_WEB_TOKEN`) are
supplied as arguments. Returns the constructed client or `ErrInvalidConfig`,
together with the (empty) trace of network calls performed. -/
def NewRapidClient (baseURL key secret userWebToken : String) :
    Except GoError RapidClient × List NetCall :=
  if baseURL = "" ∨ key = "" ∨ secret = "" then
    (.error .invalidConfig, [])
  else
    (.ok { baseURL := trimRightSlashes baseURL, key := key, secret := secret,
           userWebToken := userWebToken, token := none, xAuthorization := "" }, [])

/-- `generateParameters` of rapid.go: refresh grant when requested and a held
token carries a non-empty refresh value; otherwise JWT-bearer when a user web
token is configured; otherwise client credentials with the fixed scope. -/
def RapidClient.generateParameters (c : RapidClient) (isRefresh : Bool) :
    List (String × String) :=
  let fresh : List (String × String) :=
    if c.userWebToken ≠ "" then
      [("grant_type", jwtBearerGrant), ("assertion", c.userWebToken)]
    else
      [("grant_type", clientCredentialsGrant), ("scope", "am_application_scope,default")]
  match isRefresh, c.token with
  | true, some t =>
      if t.refreshToken ≠ "" then
        [("grant_type", "refresh_token"), ("refresh_token", t.refreshToken)]
      else fresh
  | _, _ => fresh

/-- The decoded JSON body of a token-endpoint response
`{access_token, expires_in, token_type, refresh_token?}`. -/
structure TokenResp where
  accessToken : String
  expiresIn : Int
  tokenType : String
  refreshToken : String
deriving DecidableEq, Repr

/-- The environment's answer to a token-endpoint exchange: `buildErr` models
`http.NewRequest` failing, `transportErr` models `HTTPClient.Do` failing, and
`resp status decoded` models a reply with the given status whose JSON body
decodes to `decoded` (`none` = decode failure; only consulted on status 200,
as in the source). -/
inductive TokenNetResult where
  | buildErr
  | transportErr
  | resp (status : Nat) (decoded : Option TokenResp)
deriving DecidableEq, Repr

/-- Result of a credential-exchange method: updated client, Go error value,
and the trace of network interactions. -/
structure GenResult where
  client : RapidClient
  error : Option GoError
  calls : List NetCall
deriving Repr

/-- `generateOrRefreshToken` of rapid.go. POSTs the generated parameters to
`c.BaseURL + "/token"`; any build/transport/decode failure or a non-200
status returns an error leaving the client untouched; on a 200 reply the
decoded token, with its expiry recomputed at parse time, replaces the held
token wholesale. -/
def RapidClient.generateOrRefreshToken (c : RapidClient) (isRefresh : Bool)
    (net : TokenNetResult) (parseTime : Instant) : GenResult :=
  let params := c.generateParameters isRefresh
  let tokenURL := c.baseURL ++ tokenEndpoint
  match net with
  | .buildErr => ⟨c, some .tokenGeneration, [.tokenExchange isRefresh tokenURL params]⟩
  | .transportErr => ⟨c, some .tokenGeneration, [.tokenExchange isRefresh tokenURL params]⟩
  | .resp status decoded =>
    if status ≠ 200 then
      ⟨c, some (.unexpectedStatus status), [.tokenExchange isRefresh tokenURL params]⟩
    else
      match decoded with
      | none => ⟨c, some .tokenGeneration, [.tokenExchange isRefresh tokenURL params]⟩
      | some tr =>
        ⟨{ c with token := some { value := tr.accessToken, expiresIn := tr.expiresIn,
                                  tokenType := tr.tokenType, refreshToken := tr.refreshToken,
                                  expireTime := parseTime + tr.expiresIn } },
         none, [.tokenExchange isRefresh tokenURL params]⟩

/-- `GenerateToken` of rapid.go. -/
def RapidClient.GenerateToken (c : RapidClient) (net : TokenNetResult)
    (parseTime : Instant) : GenResult :=
  c.generateOrRefreshToken false net parseTime

/-- `RefreshToken` of rapid.go. -/
def RapidClient.RefreshToken (c : RapidClient) (net : TokenNetResult)
    (parseTime : Instant) : GenResult :=
  c.generateOrRefreshToken true net parseTime

/-- The condition `c.Token != nil && c.Token.IsValid()` of `ensureValidToken`. -/
def RapidClient.tokenHeldValid (c : RapidClient) (now : Instant) : Bool :=
  match c.token with
  | some t => t.IsValid now
  | none => false

/-- `ensureValidToken` of rapid.go: keep a held valid token, otherwise run
`GenerateToken` (fresh generation, never the refresh grant). -/
def RapidClient.ensureValidToken (c : RapidClient) (now : Instant)
    (net : TokenNetResult) (parseTime : Instant) : GenResult :=
  if c.tokenHeldValid now then ⟨c, none, []⟩
  else c.GenerateToken net parseTime

/-!
Model of the path and URL handling used by `Request`:
`filepath.Join` (on Linux: join with "/" then lexically clean, per the Go
`path.Clean` specification), a restricted `url.Parse`, and `url.URL.String`.
All path work is done on `List Char`, with `String` wrappers.
-/

/-- Splits a character list at every slash into its (possibly empty) raw
segments; `splitSlash "a//b".data = ["a","","b"].map data`. -/
def splitSlash : List Char → List (List Char)
  | [] => [[]]
  | c :: cs =>
    if c = '/' then [] :: splitSlash cs
    else
      match splitSlash cs with
      | s :: rest => (c :: s) :: rest
      | [] => [[c]]

/-- A path segment that survives lexical cleaning: neither empty nor ".". -/
def isRealSeg (s : List Char) : Bool :=
  decide (s ≠ []) && decide (s ≠ ['.'])

/-- The real segments of a path: raw segments minus empty ones and ".". -/
def comps (l : List Char) : List (List Char) :=
  (splitSlash l).filter isRealSeg

/-- The ".."-resolution pass of Go `path.Clean`, processing real segments
left to right against an accumulator stack (kept reversed): ".." pops a
non-".." top, is dropped at the root, and accumulates otherwise. -/
def cleanSegs (rooted : Bool) : List (List Char) → List (List Char) → List (List Char)
  | acc, [] => acc.reverse
  | acc, seg :: rest =>
    if seg = ['.', '.'] then
      match acc with
      | top :: accTail =>
        if top = ['.', '.'] then cleanSegs rooted (seg :: top :: accTail) rest
        else cleanSegs rooted accTail rest
      | [] =>
        if rooted then cleanSegs rooted [] rest
        else cleanSegs rooted [seg] rest
    else cleanSegs rooted (seg :: acc) rest

/-- Interleaves path segments with single slashes. -/
def interSlash : List (List Char) → List Char
  | [] => []
  | [s] => s
  | s :: rest => s ++ '/' :: interSlash rest

/-- Go `path.Clean` (equal to `filepath.Clean` on Linux): lexically normalize
a path, eliding repeated separators, "." segments and resolvable "..". -/
def cleanChars : List Char → List Char
  | [] => ['.']
  | c :: cs =>
    let rooted : Bool := decide (c = '/')
    let segs := cleanSegs rooted [] (comps (c :: cs))
    if segs = [] then (if rooted then ['/'] else ['.'])
    else (if rooted then '/' :: interSlash segs else interSlash segs)

/-- Go `filepath.Join(a, b)` on Linux: skip empty operands, concatenate with a
single slash, then clean; the all-empty join is "". -/
def joinChars : List Char → List Char → List Char
  | [], [] => []
  | [], b => cleanChars b
  | a, [] => cleanChars a
  | a, b => cleanChars (a ++ '/' :: b)

/-- String wrapper for `filepath.Join` on two operands. -/
def filepathJoin (a b : String) : String :=
  String.mk (joinChars a.data b.data)

/-- Whether a character list contains two adjacent slashes. -/
def hasDoubleSlash : List Char → Bool
  | c1 :: c2 :: rest => (decide (c1 = '/') && decide (c2 = '/')) || hasDoubleSlash (c2 :: rest)
  | _ => false

/-- The parsed URL record, restricted to the fields rapid.go touches. -/
structure URL where
  scheme : String
  host : String
  path : String
  rawQuery : String
deriving DecidableEq, Repr

/-- The path portion written by `url.URL.String` when a host is present: a
slash is inserted before a relative non-empty path. -/
def urlPathPart : List Char → List Char
  | [] => []
  | c :: cs => if c = '/' then c :: cs else '/' :: c :: cs

/-- Modelled from `url.URL.String`, restricted to URLs without user-info,
opaque part or fragment: `scheme:` then `//host` when present, the path (with
a slash inserted before a relative path when a host is present), then
`?rawQuery` when non-empty. -/
def URL.toString (u : URL) : String :=
  (if u.scheme ≠ "" then u.scheme ++ ":" else "")
  ++ (if u.host ≠ "" then "//" ++ u.host else "")
  ++ (if u.host ≠ "" then String.mk (urlPathPart u.path.data) else u.path)
  ++ (if u.rawQuery ≠ "" then "?" ++ u.rawQuery else "")

/-- An ASCII control character (Go `net/url` rejects these when parsing). -/
def isCtl (c : Char) : Bool :=
  decide (c.toNat < 32) || decide (c.toNat = 127)

/-- Splits a character list at the first "://" occurrence. -/
def splitSchemeAux : List Char → Option (List Char × List Char)
  | [] => none
  | ':' :: '/' :: '/' :: rest => some ([], rest)
  | c :: cs => (splitSchemeAux cs).map (fun p => (c :: p.1, p.2))

/-- Splits a character list at the first slash (span of non-slash chars). -/
def spanNonSlash : List Char → List Char × List Char
  | [] => ([], [])
  | c :: cs =>
    if c = '/' then ([], c :: cs)
    else
      let p := spanNonSlash cs
      (c :: p.1, p.2)

/-- Modelled from `net/url.Parse`, restricted to `scheme://host[/path]` URLs
without user-info, query, fragment or percent-escapes. Like Go it rejects
control characters (the primary parse-failure mode); a string without "://"
parses as a bare path. -/
def parseBaseURL (s : String) : Option URL :=
  if s.data.any isCtl then none
  else
    match splitSchemeAux s.data with
    | none => some { scheme := "", host := "", path := s, rawQuery := "" }
    | some (sch, rest) =>
      let hp := spanNonSlash rest
      some { scheme := String.mk sch, host := String.mk hp.1,
             path := String.mk hp.2, rawQuery := "" }

/-!  The generic request dispatch. -/

/-- The environment's answer to the target request: status, headers and the
(opaque, unread) response body stream. -/
structure TargetResp where
  status : Nat
  headers : List (String × String)
  body : String
deriving DecidableEq, Repr

/-- The ambient world of one `Request` call: the clock reading at the
validity check, the token endpoint's behaviour and the parse-time instant if
a token exchange happens, the target endpoint's behaviour (`none` = transport
error), and the measured elapsed duration. -/
structure RequestEnv where
  now : Instant
  tokenNet : TokenNetResult
  parseTime : Instant
  targetNet : Option TargetResp
  elapsed : Int
deriving Repr

/-- The `body interface{}` argument of `Request`: absent, or present with the
outcome of its JSON serialization (`none` = marshal error; the custom
`JSONBody` capability and generic `json.Marshal` both yield such an
outcome). -/
inductive ReqBody where
  | noBody
  | withBody (marshalResult : Option String)
deriving DecidableEq, Repr

/-- The `Response` struct of rapid.go. -/
structure Response where
  body : String
  status : Nat
  headers : List (String × String)
  error : Option GoError
  responseTime : Int
  requestURL : String
deriving DecidableEq, Repr

/-- The pair of results of `Request` (`*Response`, `error`), the updated
client state, and the trace of network interactions. -/
structure ReqResult where
  client : RapidClient
  response : Option Response
  error : Option GoError
  calls : List NetCall
deriving Repr

/-- `http.Header.Set`: replace the value under a key, or append the entry. -/
def setHeader (hs : List (String × String)) (k v : String) : List (String × String) :=
  if hs.any (fun p => decide (p.1 = k)) then
    hs.map (fun p => if p.1 = k then (k, v) else p)
  else hs ++ [(k, v)]

/-- Header lookup. -/
def getHeader (hs : List (String × String)) (k : String) : Option String :=
  (hs.find? (fun p => decide (p.1 = k))).map Prod.snd

/-- A character allowed in an HTTP method token (RFC 7230, as checked by
`http.NewRequest`); code 39 is the apostrophe and 96 the grave accent. -/
def isTokenChar (c : Char) : Bool :=
  c.isAlphanum || "!#$%&*+-.^_|~".data.contains c
    || decide (c.toNat = 39) || decide (c.toNat = 96)

/-- The method validation performed by `http.NewRequest`. -/
def isValidMethod (m : String) : Bool :=
  decide (m ≠ "") && m.data.all isTokenChar

/-- Modelled from `url.Values.Encode`, ignoring percent-escaping and key
sorting (no claim depends on the encoded text). -/
def encodeQuery (params : List (String × String)) : String :=
  String.intercalate "&" (params.map (fun p => p.1 ++ "=" ++ p.2))

/-- Serialization step of `Request`: no body yields no payload, a body whose
marshal failed yields the marshal error, otherwise the serialized bytes. -/
def marshalBody : ReqBody → Except Unit (Option String)
  | .noBody => .ok none
  | .withBody none => .error ()
  | .withBody (some s) => .ok (some s)

/-- The header block built by `Request`, in source order: Accept always, the
extra authorization header when configured, the bearer Authorization header
from the current token, Content-Type only when a body is present. (Go would
nil-panic on an absent token; `ensureValidToken` success rules that out, so
the `getD ""` default is unreachable.) -/
def requestHeaders (c : RapidClient) (body : ReqBody) : List (String × String) :=
  let hs0 := setHeader [] "Accept" contentTypeJSON
  let hs1 := if c.xAuthorization ≠ "" then setHeader hs0 "X-Authorization" c.xAuthorization
             else hs0
  let hs2 := setHeader hs1 "Authorization" ((c.token.map Token.GetAuthorizationHeader).getD "")
  if body ≠ .noBody then setHeader hs2 "Content-Type" contentTypeJSON else hs2

/-- The tail of `Request` after a successful ensure-valid-token step, acting
on the post-ensure client state `c` and accumulated trace `ec`: parse the
base URL, join the path filesystem-style, attach query parameters, serialize
the body, build the request with its headers, execute it, and wrap the
reply. -/
def requestAfterToken (c : RapidClient) (ec : List NetCall) (method urlPath : String)
    (body : ReqBody) (params : List (String × String)) (env : RequestEnv) : ReqResult :=
  match parseBaseURL c.baseURL with
  | none => ⟨c, none, some .urlParse, ec⟩
  | some u0 =>
    let u : URL := { u0 with path := filepathJoin u0.path urlPath,
                             rawQuery := if params ≠ [] then encodeQuery params else u0.rawQuery }
    match marshalBody body with
    | .error _ => ⟨c, none, some .marshalBody, ec⟩
    | .ok obuf =>
      let m := if method = "" then "GET" else method
      if isValidMethod m then
        let hs := requestHeaders c body
        let requestURL := u.toString
        let call := NetCall.targetCall m requestURL hs obuf.isSome
        match env.targetNet with
        | none => ⟨c, none, some .sendRequest, ec ++ [call]⟩
        | some tr =>
          ⟨c, some { body := tr.body, status := tr.status, headers := tr.headers,
                     error := none, responseTime := env.elapsed, requestURL := requestURL },
           none, ec ++ [call]⟩
      else ⟨c, none, some .createRequest, ec⟩

/-- `Request` of rapid.go: ensure a valid token (fresh generation on a
missing or invalid one), then dispatch via `requestAfterToken`. -/
def RapidClient.Request (c : RapidClient) (method urlPath : String) (body : ReqBody)
    (params : List (String × String)) (env : RequestEnv) : ReqResult :=
  let er := c.ensureValidToken env.now env.tokenNet env.parseTime
  match er.error with
  | some e => ⟨er.client, none, some (.ensureToken e), er.calls⟩
  | none => requestAfterToken er.client er.calls method urlPath body params env

/-- `Get` of rapid.go. -/
def RapidClient.Get (c : RapidClient) (urlPath : String)
    (params : List (String × String)) (env : RequestEnv) : ReqResult :=
  c.Request "GET" urlPath .noBody params env

/-- `Post` of rapid.go (`body` is the outcome of the argument's JSON
serialization). -/
def RapidClient.Post (c : RapidClient) (urlPath : String) (body : Option String)
    (env : RequestEnv) : ReqResult :=
  c.Request "POST" urlPath (.withBody body) [] env

/-- `Put` of rapid.go. -/
def RapidClient.Put (c : RapidClient) (urlPath : String) (body : Option String)
    (env : RequestEnv) : ReqResult :=
  c.Request "PUT" urlPath (.withBody body) [] env

/-- `Delete` of rapid.go. -/
def RapidClient.Delete (c : RapidClient) (urlPath : String) (env : RequestEnv) : ReqResult :=
  c.Request "DELETE" urlPath .noBody [] env

/-- Whether a trace entry is a credential-exchange invocation. -/
def isTokenExchangeCall : NetCall → Bool
  | .tokenExchange _ _ _ => true
  | _ => false

/-- The credential-exchange entries of a trace. -/
def tokenExchanges (calls : List NetCall) : List NetCall :=
  calls.filter isTokenExchangeCall

/-- First value bound to a key in a form-parameter list. -/
def lookupParam (ps : List (String × String)) (k : String) : Option String :=
  (ps.find? (fun p => decide (p.1 = k))).map Prod.snd

/-!  Helper lemmas about the credential exchange. -/

theorem generateOrRefreshToken_calls (c : RapidClient) (isRefresh : Bool)
    (net : TokenNetResult) (pt : Instant) :
    (c.generateOrRefreshToken isRefresh net pt).calls =
      [.tokenExchange isRefresh (c.baseURL ++ tokenEndpoint) (c.generateParameters isRefresh)] := by
  unfold RapidClient.generateOrRefreshToken
  cases net with
  | buildErr => rfl
  | transportErr => rfl
  | resp status decoded =>
    by_cases h : status ≠ 200
    · simp [h]
    · cases decoded <;> simp [h]

theorem generateOrRefreshToken_preserves (c : RapidClient) (isRefresh : Bool)
    (net : TokenNetResult) (pt : Instant) :
    (c.generateOrRefreshToken isRefresh net pt).client.baseURL = c.baseURL ∧
    (c.generateOrRefreshToken isRefresh net pt).client.key = c.key ∧
    (c.generateOrRefreshToken isRefresh net pt).client.secret = c.secret ∧
    (c.generateOrRefreshToken isRefresh net pt).client.userWebToken = c.userWebToken ∧
    (c.generateOrRefreshToken isRefresh net pt).client.xAuthorization = c.xAuthorization := by
  unfold RapidClient.generateOrRefreshToken
  cases net with
  | buildErr => exact ⟨rfl, rfl, rfl, rfl, rfl⟩
  | transportErr => exact ⟨rfl, rfl, rfl, rfl, rfl⟩
  | resp status decoded =>
    by_cases h : status ≠ 200
    · simp [h]
    · cases decoded <;> simp [h]

theorem generateOrRefreshToken_ok_token (c : RapidClient) (isRefresh : Bool)
    (net : TokenNetResult) (pt : Instant)
    (h : (c.generateOrRefreshToken isRefresh net pt).error = none) :
    ∃ t, (c.generateOrRefreshToken isRefresh net pt).client.token = some t := by
  unfold RapidClient.generateOrRefreshToken at *
  cases net with
  | buildErr => simp at h
  | transportErr => simp at h
  | resp status decoded =>
    by_cases hs : status ≠ 200
    · simp [hs] at h
    · cases decoded with
      | none => simp [hs] at h
      | some tr => simp [hs]

theorem ensureValidToken_of_valid (c : RapidClient) (now : Instant)
    (net : TokenNetResult) (pt : Instant) (h : c.tokenHeldValid now = true) :
    c.ensureValidToken now net pt = ⟨c, none, []⟩ := by
  simp [RapidClient.ensureValidToken, h]

theorem ensureValidToken_of_invalid (c : RapidClient) (now : Instant)
    (net : TokenNetResult) (pt : Instant) (h : c.tokenHeldValid now = false) :
    c.ensureValidToken now net pt = c.generateOrRefreshToken false net pt := by
  simp [RapidClient.ensureValidToken, h, RapidClient.GenerateToken]

theorem ensureValidToken_ok_token (c : RapidClient) (now : Instant)
    (net : TokenNetResult) (pt : Instant)
    (h : (c.ensureValidToken now net pt).error = none) :
    ∃ t, (c.ensureValidToken now net pt).client.token = some t := by
  by_cases hv : c.tokenHeldValid now
  · rw [ensureValidToken_of_valid c now net pt hv]
    rw [ensureValidToken_of_valid c now net pt hv] at h
    unfold RapidClient.tokenHeldValid at hv
    cases ht : c.token with
    | none => rw [ht] at hv; simp at hv
    | some t => exact ⟨t, rfl⟩
  · rw [ensureValidToken_of_invalid c now net pt (by simpa using hv)] at *
    exact generateOrRefreshToken_ok_token c false net pt h

theorem ensureValidToken_calls_exchanges (c : RapidClient) (now : Instant)
    (net : TokenNetResult) (pt : Instant) :
    ∀ x ∈ (c.ensureValidToken now net pt).calls, isTokenExchangeCall x = true := by
  by_cases hv : c.tokenHeldValid now
  · rw [ensureValidToken_of_valid c now net pt hv]; intro x hx; simp at hx
  · rw [ensureValidToken_of_invalid c now net pt (by simpa using hv)]
    rw [generateOrRefreshToken_calls]
    intro x hx
    simp at hx
    subst hx
    rfl

/-!  C2: token validity window. -/

/-- C2: a token constructed with lifetime L at instant t is valid at `now`
iff `now` is strictly before `t + L`; in particular it is valid immediately
after creation when `L > 0` and invalid once L seconds have elapsed, with no
grace period or skew tolerance. -/
theorem c2_token_validity_window (v : String) (L : Int) (ty r : String) (t now : Instant) :
    ((NewToken v L ty r t).IsValid now = true ↔ now < t + L) ∧
    (0 < L → (NewToken v L ty r t).IsValid t = true) ∧
    (∀ n : Instant, t + L ≤ n → (NewToken v L ty r t).IsValid n = false) := by
  refine ⟨by simp [NewToken, Token.IsValid], fun hL => ?_, fun n hn => ?_⟩
  · show decide (t < t + L) = true
    rw [decide_eq_true_eq]
    exact lt_add_of_pos_right t hL
  · show decide (n < t + L) = false
    rw [decide_eq_false_iff_not]
    exact not_lt.mpr hn

/-- Witness for C2 at lifetime 5, creation instant 100. -/
theorem c2_witness :
    (NewToken "v" 5 "Bearer" "r" 100).IsValid 100 = true ∧
    (NewToken "v" 5 "Bearer" "r" 100).IsValid 105 = false :=
  ⟨(c2_token_validity_window "v" 5 "Bearer" "r" 100 100).2.1 (by decide),
   (c2_token_validity_window "v" 5 "Bearer" "r" 100 105).2.2 105 (by decide)⟩

/-!  C3: grant selection. -/

/-- C3: the exchange parameters are the refresh grant exactly when refresh is
requested and a held token carries a non-empty refresh value; otherwise the
JWT-bearer grant when a user assertion is configured, else client credentials
with the fixed scope — so a refresh request with no prior token (or an empty
stored refresh value) falls back to the fresh-generation grants. -/
theorem c3_grant_parameter_selection (c : RapidClient) :
    (∀ t, c.token = some t → t.refreshToken ≠ "" →
      c.generateParameters true =
        [("grant_type", "refresh_token"), ("refresh_token", t.refreshToken)]) ∧
    (∀ isRefresh : Bool,
      (isRefresh = false ∨ c.token = none ∨ (∃ t, c.token = some t ∧ t.refreshToken = "")) →
      c.generateParameters isRefresh =
        (if c.userWebToken ≠ "" then
          [("grant_type", jwtBearerGrant), ("assertion", c.userWebToken)]
        else
          [("grant_type", clientCredentialsGrant), ("scope", "am_application_scope,default")])) := by
  constructor
  · intro t ht hrt
    simp [RapidClient.generateParameters, ht, hrt]
  · intro isRefresh h
    rcases h with h | h | ⟨t, ht, hrt⟩
    · subst h
      cases c.token <;> simp [RapidClient.generateParameters]
    · cases isRefresh <;> simp [RapidClient.generateParameters, h]
    · cases isRefresh <;> simp [RapidClient.generateParameters, ht, hrt]

/-- Witness for C3: a client holding a refresh-capable token uses the refresh
grant; the same client with no token falls back to client credentials. -/
theorem c3_witness :
    RapidClient.generateParameters
      { baseURL := "http://b", key := "k", secret := "s", userWebToken := "",
        token := some ⟨"v", 1, "Bearer", "R", 0⟩, xAuthorization := "" } true =
      [("grant_type", "refresh_token"), ("refresh_token", "R")] ∧
    RapidClient.generateParameters
      { baseURL := "http://b", key := "k", secret := "s", userWebToken := "",
        token := none, xAuthorization := "" } true =
      [("grant_type", clientCredentialsGrant), ("scope", "am_application_scope,default")] := by
  constructor
  · exact (c3_grant_parameter_selection _).1 ⟨"v", 1, "Bearer", "R", 0⟩ rfl (by decide)
  · have h := (c3_grant_parameter_selection
      { baseURL := "http://b", key := "k", secret := "s", userWebToken := "",
        token := none, xAuthorization := "" }).2 true (Or.inr (Or.inl rfl))
    simpa using h

/-!  C4: failed exchanges leave the client untouched. -/

/-- C4: every failing credential exchange — non-200 status (yielding the
unexpected-status error), request-construction failure, transport failure, or
JSON-decode failure — returns an error and leaves the whole client state,
in particular the held Token field, exactly as it was. -/
theorem c4_exchange_failure_atomicity (c : RapidClient) (isRefresh : Bool) (pt : Instant) :
    (∀ (status : Nat) (decoded : Option TokenResp), status ≠ 200 →
      (c.generateOrRefreshToken isRefresh (.resp status decoded) pt).client = c ∧
      (c.generateOrRefreshToken isRefresh (.resp status decoded) pt).error =
        some (.unexpectedStatus status)) ∧
    ((c.generateOrRefreshToken isRefresh .buildErr pt).client = c ∧
      (c.generateOrRefreshToken isRefresh .buildErr pt).error = some .tokenGeneration) ∧
    ((c.generateOrRefreshToken isRefresh .transportErr pt).client = c ∧
      (c.generateOrRefreshToken isRefresh .transportErr pt).error = some .tokenGeneration) ∧
    ((c.generateOrRefreshToken isRefresh (.resp 200 none) pt).client = c ∧
      (c.generateOrRefreshToken isRefresh (.resp 200 none) pt).error = some .tokenGeneration) := by
  refine ⟨fun status decoded h => ?_, ⟨rfl, rfl⟩, ⟨rfl, rfl⟩, ?_⟩
  · simp [RapidClient.generateOrRefreshToken, h]
  · simp [RapidClient.generateOrRefreshToken]

/-- Witness for C4: a 500 reply leaves a held valid token in place and
reports the unexpected-status error. -/
theorem c4_witness :
    (RapidClient.generateOrRefreshToken
      { baseURL := "http://b", key := "k", secret := "s", userWebToken := "",
        token := some ⟨"v", 3600, "Bearer", "R", 1000⟩, xAuthorization := "" }
      false (.resp 500 none) 0).client =
      { baseURL := "http://b", key := "k", secret := "s", userWebToken := "",
        token := some ⟨"v", 3600, "Bearer", "R", 1000⟩, xAuthorization := "" } ∧
    (RapidClient.generateOrRefreshToken
      { baseURL := "http://b", key := "k", secret := "s", userWebToken := "",
        token := some ⟨"v", 3600, "Bearer", "R", 1000⟩, xAuthorization := "" }
      false (.resp 500 none) 0).error = some (.unexpectedStatus 500) :=
  (c4_exchange_failure_atomicity _ false 0).1 500 none (by decide)

/-!  C5: successful exchanges replace the token wholesale. -/

/-- C5: on a 200 reply decoding to `{access_token: T, expires_in: N,
token_type: "Bearer", refresh_token: R}`, both fresh generation and refresh
replace the held token wholesale by a token with value T, refresh value R,
authorization-header value "Bearer T", and absolute expiry equal to the
parse-time instant plus N. -/
theorem c5_success_replaces_token (c : RapidClient) (isRefresh : Bool)
    (T : String) (N : Int) (R : String) (pt : Instant) :
    (c.generateOrRefreshToken isRefresh (.resp 200 (some ⟨T, N, "Bearer", R⟩)) pt).client.token =
      some ⟨T, N, "Bearer", R, pt + N⟩ ∧
    (c.generateOrRefreshToken isRefresh (.resp 200 (some ⟨T, N, "Bearer", R⟩)) pt).error = none ∧
    Token.GetAuthorizationHeader ⟨T, N, "Bearer", R, pt + N⟩ = "Bearer " ++ T := by
  refine ⟨by simp [RapidClient.generateOrRefreshToken], by simp [RapidClient.generateOrRefreshToken], ?_⟩
  show ("Bearer" ++ " ") ++ T = "Bearer " ++ T
  exact congrArg (· ++ T) (by decide)

/-!  C6: construction checks configuration and makes no network call. -/

/-- C6: constructing a client with any of base URL, key or secret missing
returns the configuration error and no client; with all three present it
returns a client; and in both cases no network call is performed (the trace
component is empty). -/
theorem c6_construction_config_check (baseURL key secret userWebToken : String) :
    ((baseURL = "" ∨ key = "" ∨ secret = "") →
      NewRapidClient baseURL key secret userWebToken = (.error .invalidConfig, [])) ∧
    (baseURL ≠ "" → key ≠ "" → secret ≠ "" →
      NewRapidClient baseURL key secret userWebToken =
        (.ok { baseURL := trimRightSlashes baseURL, key := key, secret := secret,
               userWebToken := userWebToken, token := none, xAuthorization := "" }, [])) := by
  constructor
  · intro h
    simp [NewRapidClient, h]
  · intro h1 h2 h3
    simp [NewRapidClient, h1, h2, h3]

/-- Witness for C6: a missing secret fails with the configuration error; a
full configuration constructs the client; neither performs a network call. -/
theorem c6_witness :
    NewRapidClient "http://b" "k" "" "" = (.error .invalidConfig, []) ∧
    NewRapidClient "http://b" "k" "s" "" =
      (.ok { baseURL := "http://b", key := "k", secret := "s",
             userWebToken := "", token := none, xAuthorization := "" }, []) := by
  constructor
  · exact (c6_construction_config_check "http://b" "k" "" "").1 (by simp)
  · have h := (c6_construction_config_check "http://b" "k" "s" "").2
      (by decide) (by decide) (by decide)
    rw [h]
    rfl

/-!  Helper lemmas about `requestAfterToken` and `Request`. -/

theorem requestAfterToken_client (c : RapidClient) (ec : List NetCall) (m p : String)
    (b : ReqBody) (q : List (String × String)) (env : RequestEnv) :
    (requestAfterToken c ec m p b q env).client = c := by
  simp only [requestAfterToken]
  repeat' split
  all_goals rfl

theorem requestAfterToken_calls (c : RapidClient) (ec : List NetCall) (m p : String)
    (b : ReqBody) (q : List (String × String)) (env : RequestEnv) :
    ∃ tail, (requestAfterToken c ec m p b q env).calls = ec ++ tail ∧
      ∀ x ∈ tail, isTokenExchangeCall x = false := by
  simp only [requestAfterToken]
  repeat' split
  all_goals first
    | exact ⟨[], (List.append_nil ec).symm, by simp⟩
    | exact ⟨_, rfl, fun x hx => by rw [List.mem_singleton] at hx; subst hx; rfl⟩

theorem requestAfterToken_xor (c : RapidClient) (ec : List NetCall) (m p : String)
    (b : ReqBody) (q : List (String × String)) (env : RequestEnv) :
    ((requestAfterToken c ec m p b q env).response.isSome ↔
      (requestAfterToken c ec m p b q env).error = none) := by
  simp only [requestAfterToken]
  repeat' split
  all_goals simp

theorem requestAfterToken_mem_target (c : RapidClient) (ec : List NetCall) (m p : String)
    (b : ReqBody) (q : List (String × String)) (env : RequestEnv)
    (mm uu : String) (hs : List (String × String)) (hb : Bool)
    (hec : ∀ x ∈ ec, isTokenExchangeCall x = true)
    (hmem : NetCall.targetCall mm uu hs hb ∈ (requestAfterToken c ec m p b q env).calls) :
    hs = requestHeaders c b := by
  revert hmem
  simp only [requestAfterToken]
  repeat' split
  all_goals intro hmem
  all_goals try (have hcontra := hec _ hmem; simp [isTokenExchangeCall] at hcontra)
  all_goals rcases List.mem_append.mp hmem with hmem1 | hmem1
  all_goals try (have hcontra := hec _ hmem1; simp [isTokenExchangeCall] at hcontra)
  all_goals simp at hmem1
  all_goals exact hmem1.2.2.1

theorem Request_ensure_err (c : RapidClient) (m p : String) (b : ReqBody)
    (q : List (String × String)) (env : RequestEnv) (e : GoError)
    (h : (c.ensureValidToken env.now env.tokenNet env.parseTime).error = some e) :
    c.Request m p b q env =
      ⟨(c.ensureValidToken env.now env.tokenNet env.parseTime).client, none,
       some (.ensureToken e),
       (c.ensureValidToken env.now env.tokenNet env.parseTime).calls⟩ := by
  simp only [RapidClient.Request]
  split
  case _ e2 heq => rw [h] at heq; cases heq; rfl
  case _ heq => rw [h] at heq; cases heq

theorem Request_ensure_ok (c : RapidClient) (m p : String) (b : ReqBody)
    (q : List (String × String)) (env : RequestEnv)
    (h : (c.ensureValidToken env.now env.tokenNet env.parseTime).error = none) :
    c.Request m p b q env =
      requestAfterToken (c.ensureValidToken env.now env.tokenNet env.parseTime).client
        (c.ensureValidToken env.now env.tokenNet env.parseTime).calls m p b q env := by
  simp only [RapidClient.Request]
  split
  case _ e2 heq => rw [h] at heq; cases heq
  case _ heq => rfl

theorem generateParameters_false_not_refresh (c : RapidClient) :
    lookupParam (c.generateParameters false) "grant_type" ≠ some "refresh_token" := by
  unfold RapidClient.generateParameters lookupParam
  cases c.token with
  | none =>
    by_cases h : c.userWebToken ≠ "" <;> simp [h, jwtBearerGrant, clientCredentialsGrant]
  | some t =>
    by_cases h : c.userWebToken ≠ "" <;> simp [h, jwtBearerGrant, clientCredentialsGrant]

/-!  C1: the ensure-valid-token step of Request. -/

/-- C1: dispatch with a held valid token performs no token exchange and
leaves the held token unchanged; dispatch with no or an invalid held token
performs exactly one credential exchange, with `isRefresh = false` and a
grant that is never the refresh grant, recorded in the trace before the
target request. -/
theorem c1_request_ensures_valid_token (c : RapidClient) (m p : String) (b : ReqBody)
    (q : List (String × String)) (env : RequestEnv) :
    (∀ t, c.token = some t → t.IsValid env.now = true →
      (c.Request m p b q env).client.token = some t ∧
      tokenExchanges (c.Request m p b q env).calls = []) ∧
    (c.tokenHeldValid env.now = false →
      tokenExchanges (c.Request m p b q env).calls =
        [.tokenExchange false (c.baseURL ++ tokenEndpoint) (c.generateParameters false)] ∧
      (c.Request m p b q env).calls.head? =
        some (.tokenExchange false (c.baseURL ++ tokenEndpoint) (c.generateParameters false)) ∧
      lookupParam (c.generateParameters false) "grant_type" ≠ some "refresh_token") := by
  constructor
  · intro t ht hv
    have hheld : c.tokenHeldValid env.now = true := by
      unfold RapidClient.tokenHeldValid
      rw [ht]
      exact hv
    have hens := ensureValidToken_of_valid c env.now env.tokenNet env.parseTime hheld
    have herr : (c.ensureValidToken env.now env.tokenNet env.parseTime).error = none := by
      rw [hens]
    rw [Request_ensure_ok c m p b q env herr, hens]
    constructor
    · rw [requestAfterToken_client]
      exact ht
    · obtain ⟨tail, hcalls, htail⟩ := requestAfterToken_calls c [] m p b q env
      rw [hcalls]
      simp only [List.nil_append, tokenExchanges]
      exact List.filter_eq_nil_iff.mpr (fun a ha => by simp [htail a ha])
  · intro hheld
    have hens := ensureValidToken_of_invalid c env.now env.tokenNet env.parseTime hheld
    have hcallsg := generateOrRefreshToken_calls c false env.tokenNet env.parseTime
    have hexg : isTokenExchangeCall (NetCall.tokenExchange false
        (c.baseURL ++ tokenEndpoint) (c.generateParameters false)) = true := rfl
    cases herr : (c.ensureValidToken env.now env.tokenNet env.parseTime).error with
    | some e =>
      rw [Request_ensure_err c m p b q env e herr, hens, hcallsg]
      exact ⟨rfl, rfl, generateParameters_false_not_refresh c⟩
    | none =>
      rw [Request_ensure_ok c m p b q env herr]
      obtain ⟨tail, hcalls, htail⟩ :=
        requestAfterToken_calls (c.ensureValidToken env.now env.tokenNet env.parseTime).client
          (c.ensureValidToken env.now env.tokenNet env.parseTime).calls m p b q env
      rw [hcalls, hens, hcallsg]
      have hft : tail.filter isTokenExchangeCall = [] :=
        List.filter_eq_nil_iff.mpr (fun a ha => by simp [htail a ha])
      refine ⟨?_, ?_, generateParameters_false_not_refresh c⟩
      · simp only [List.singleton_append, tokenExchanges, List.filter_cons, hexg, if_true]
        rw [hft]
      · rw [List.singleton_append]
        rfl

/-- Witness for C1: a client with a valid token dispatches with no exchange;
one with no token performs exactly one client-credentials exchange first. -/
theorem c1_witness :
    ((RapidClient.Request
        { baseURL := "http://b", key := "k", secret := "s", userWebToken := "",
          token := some ⟨"tok", 3600, "Bearer", "", 1000⟩, xAuthorization := "" }
        "GET" "/w" .noBody []
        { now := 0, tokenNet := .resp 200 none, parseTime := 0,
          targetNet := some ⟨200, [], "{}"⟩, elapsed := 1 }).client.token =
      some ⟨"tok", 3600, "Bearer", "", 1000⟩ ∧
     tokenExchanges (RapidClient.Request
        { baseURL := "http://b", key := "k", secret := "s", userWebToken := "",
          token := some ⟨"tok", 3600, "Bearer", "", 1000⟩, xAuthorization := "" }
        "GET" "/w" .noBody []
        { now := 0, tokenNet := .resp 200 none, parseTime := 0,
          targetNet := some ⟨200, [], "{}"⟩, elapsed := 1 }).calls = []) ∧
    tokenExchanges (RapidClient.Request
        { baseURL := "http://b", key := "k", secret := "s", userWebToken := "",
          token := none, xAuthorization := "" }
        "GET" "/w" .noBody []
        { now := 0, tokenNet := .resp 200 none, parseTime := 0,
          targetNet := some ⟨200, [], "{}"⟩, elapsed := 1 }).calls =
      [.tokenExchange false ("http://b" ++ tokenEndpoint)
        (RapidClient.generateParameters
          { baseURL := "http://b", key := "k", secret := "s", userWebToken := "",
            token := none, xAuthorization := "" } false)] :=
  ⟨(c1_request_ensures_valid_token _ "GET" "/w" .noBody [] _).1
      ⟨"tok", 3600, "Bearer", "", 1000⟩ rfl (by decide),
   ((c1_request_ensures_valid_token _ "GET" "/w" .noBody [] _).2 (by decide)).1⟩

/-!  Header lemmas for C7. -/

theorem requestHeaders_accept (c : RapidClient) (b : ReqBody) :
    getHeader (requestHeaders c b) "Accept" = some contentTypeJSON := by
  unfold requestHeaders
  by_cases hx : c.xAuthorization ≠ "" <;> by_cases hb : b ≠ ReqBody.noBody <;>
    simp [hx, hb, setHeader, getHeader, List.find?]

theorem requestHeaders_xauth (c : RapidClient) (b : ReqBody) :
    getHeader (requestHeaders c b) "X-Authorization" =
      (if c.xAuthorization ≠ "" then some c.xAuthorization else none) := by
  unfold requestHeaders
  by_cases hx : c.xAuthorization ≠ "" <;> by_cases hb : b ≠ ReqBody.noBody <;>
    simp [hx, hb, setHeader, getHeader, List.find?]

theorem requestHeaders_auth (c : RapidClient) (b : ReqBody) :
    getHeader (requestHeaders c b) "Authorization" =
      some ((c.token.map Token.GetAuthorizationHeader).getD "") := by
  unfold requestHeaders
  by_cases hx : c.xAuthorization ≠ "" <;> by_cases hb : b ≠ ReqBody.noBody <;>
    simp [hx, hb, setHeader, getHeader, List.find?]

theorem requestHeaders_contentType (c : RapidClient) (b : ReqBody) :
    getHeader (requestHeaders c b) "Content-Type" =
      (if b ≠ ReqBody.noBody then some contentTypeJSON else none) := by
  unfold requestHeaders
  by_cases hx : c.xAuthorization ≠ "" <;> by_cases hb : b ≠ ReqBody.noBody <;>
    simp [hx, hb, setHeader, getHeader, List.find?]

theorem ensureValidToken_preserves (c : RapidClient) (now : Instant)
    (net : TokenNetResult) (pt : Instant) :
    (c.ensureValidToken now net pt).client.baseURL = c.baseURL ∧
    (c.ensureValidToken now net pt).client.xAuthorization = c.xAuthorization := by
  by_cases hv : c.tokenHeldValid now
  · rw [ensureValidToken_of_valid c now net pt hv]
    exact ⟨rfl, rfl⟩
  · rw [ensureValidToken_of_invalid c now net pt (by simpa using hv)]
    obtain ⟨h1, _, _, _, h5⟩ := generateOrRefreshToken_preserves c false net pt
    exact ⟨h1, h5⟩

theorem Request_mem_target (c : RapidClient) (m p : String) (b : ReqBody)
    (q : List (String × String)) (env : RequestEnv)
    (mm uu : String) (hs : List (String × String)) (hb : Bool)
    (hmem : NetCall.targetCall mm uu hs hb ∈ (c.Request m p b q env).calls) :
    hs = requestHeaders (c.Request m p b q env).client b ∧
    ∃ t, (c.Request m p b q env).client.token = some t := by
  cases herr : (c.ensureValidToken env.now env.tokenNet env.parseTime).error with
  | some e =>
    rw [Request_ensure_err c m p b q env e herr] at hmem
    have := ensureValidToken_calls_exchanges c env.now env.tokenNet env.parseTime _ hmem
    simp [isTokenExchangeCall] at this
  | none =>
    rw [Request_ensure_ok c m p b q env herr] at hmem ⊢
    rw [requestAfterToken_client]
    exact ⟨requestAfterToken_mem_target _ _ m p b q env mm uu hs hb
        (ensureValidToken_calls_exchanges c env.now env.tokenNet env.parseTime) hmem,
      ensureValidToken_ok_token c env.now env.tokenNet env.parseTime herr⟩

theorem Request_preserves (c : RapidClient) (m p : String) (b : ReqBody)
    (q : List (String × String)) (env : RequestEnv) :
    (c.Request m p b q env).client.baseURL = c.baseURL ∧
    (c.Request m p b q env).client.xAuthorization = c.xAuthorization := by
  have hpres := ensureValidToken_preserves c env.now env.tokenNet env.parseTime
  cases herr : (c.ensureValidToken env.now env.tokenNet env.parseTime).error with
  | some e =>
    rw [Request_ensure_err c m p b q env e herr]
    exact hpres
  | none =>
    rw [Request_ensure_ok c m p b q env herr, requestAfterToken_client]
    exact hpres

/-!  C7: headers of the dispatched request. -/

/-- C7: every target request recorded by `Request` carries
`Accept: application/json`; the extra authorization header exactly when that
value is configured non-empty; the Authorization header equal to the current
token's authorization-header value; and `Content-Type: application/json` iff
a body was supplied — so the `Get` and `Delete` wrappers never produce a
Content-Type header. -/
theorem c7_request_headers (c : RapidClient) (m p : String) (b : ReqBody)
    (q : List (String × String)) (env : RequestEnv)
    (mm uu : String) (hs : List (String × String)) (hb : Bool)
    (hmem : NetCall.targetCall mm uu hs hb ∈ (c.Request m p b q env).calls) :
    (getHeader hs "Accept" = some contentTypeJSON ∧
      getHeader hs "X-Authorization" =
        (if c.xAuthorization ≠ "" then some c.xAuthorization else none) ∧
      (∃ t, (c.Request m p b q env).client.token = some t ∧
        getHeader hs "Authorization" = some t.GetAuthorizationHeader) ∧
      (getHeader hs "Content-Type" = some contentTypeJSON ↔ b ≠ ReqBody.noBody)) ∧
    (∀ (p2 : String) (q2 : List (String × String)) (env2 : RequestEnv)
        (m2 u2 : String) (hs2 : List (String × String)) (hb2 : Bool),
      NetCall.targetCall m2 u2 hs2 hb2 ∈ (c.Get p2 q2 env2).calls →
        getHeader hs2 "Content-Type" = none) ∧
    (∀ (p2 : String) (env2 : RequestEnv)
        (m2 u2 : String) (hs2 : List (String × String)) (hb2 : Bool),
      NetCall.targetCall m2 u2 hs2 hb2 ∈ (c.Delete p2 env2).calls →
        getHeader hs2 "Content-Type" = none) := by
  obtain ⟨hhs, t, ht⟩ := Request_mem_target c m p b q env mm uu hs hb hmem
  refine ⟨⟨?_, ?_, ?_, ?_⟩, ?_, ?_⟩
  · rw [hhs]; exact requestHeaders_accept _ b
  · rw [hhs, requestHeaders_xauth, (Request_preserves c m p b q env).2]
  · refine ⟨t, ht, ?_⟩
    rw [hhs, requestHeaders_auth, ht]
    rfl
  · rw [hhs, requestHeaders_contentType]
    by_cases hbv : b ≠ ReqBody.noBody <;> simp [hbv, contentTypeJSON]
  · intro p2 q2 env2 m2 u2 hs2 hb2 hmem2
    obtain ⟨hhs2, _⟩ := Request_mem_target c "GET" p2 .noBody q2 env2 m2 u2 hs2 hb2 hmem2
    rw [hhs2, requestHeaders_contentType]
    simp
  · intro p2 env2 m2 u2 hs2 hb2 hmem2
    obtain ⟨hhs2, _⟩ := Request_mem_target c "DELETE" p2 .noBody [] env2 m2 u2 hs2 hb2 hmem2
    rw [hhs2, requestHeaders_contentType]
    simp

/-- Witness for C7: a concrete GET dispatch records exactly the Accept and
Authorization headers, and its header block answers the four lookups. -/
theorem c7_witness :
    getHeader [("Accept", "application/json"), ("Authorization", "Bearer tok")] "Accept" =
      some contentTypeJSON :=
  ((c7_request_headers
    { baseURL := "http://b", key := "k", secret := "s", userWebToken := "",
      token := some ⟨"tok", 3600, "Bearer", "", 1000⟩, xAuthorization := "" }
    "GET" "/w" .noBody []
    { now := 0, tokenNet := .resp 200 none, parseTime := 0,
      targetNet := some ⟨200, [], "{}"⟩, elapsed := 1 }
    "GET" "http://b/w" [("Accept", "application/json"), ("Authorization", "Bearer tok")] false
    (by decide)).1).1

/-!  C8: a dispatch yields exactly one of response and error. -/

theorem requestAfterToken_response_fields (c : RapidClient) (ec : List NetCall)
    (m p : String) (b : ReqBody) (q : List (String × String)) (env : RequestEnv)
    (resp : Response)
    (h : (requestAfterToken c ec m p b q env).response = some resp) :
    resp.error = none ∧ resp.responseTime = env.elapsed ∧
    (∃ tr, env.targetNet = some tr ∧ resp.status = tr.status ∧
      resp.headers = tr.headers ∧ resp.body = tr.body) ∧
    (∃ mm hs2 hb2, NetCall.targetCall mm resp.requestURL hs2 hb2 ∈
      (requestAfterToken c ec m p b q env).calls) := by
  revert h
  simp only [requestAfterToken]
  repeat' split
  all_goals intro h
  all_goals try exact Option.noConfusion h
  all_goals cases Option.some.inj h
  all_goals refine ⟨rfl, rfl, ⟨_, by assumption, rfl, rfl, rfl⟩,
    ⟨_, _, _, List.mem_append_right ec (List.mem_singleton_self _)⟩⟩

/-- C8: `Request` returns exactly one of a response and an error: the
response, when present, carries the response body stream, status, headers,
the measured elapsed duration and the final resolved request URL (the URL of
the dispatched target request), and its embedded error field is nil. -/
theorem c8_response_xor_error (c : RapidClient) (m p : String) (b : ReqBody)
    (q : List (String × String)) (env : RequestEnv) :
    ((c.Request m p b q env).response.isSome ↔ (c.Request m p b q env).error = none) ∧
    (∀ resp, (c.Request m p b q env).response = some resp →
      resp.error = none ∧ resp.responseTime = env.elapsed ∧
      (∃ tr, env.targetNet = some tr ∧ resp.status = tr.status ∧
        resp.headers = tr.headers ∧ resp.body = tr.body) ∧
      (∃ mm hs2 hb2, NetCall.targetCall mm resp.requestURL hs2 hb2 ∈
        (c.Request m p b q env).calls)) := by
  cases herr : (c.ensureValidToken env.now env.tokenNet env.parseTime).error with
  | some e =>
    rw [Request_ensure_err c m p b q env e herr]
    exact ⟨by simp, fun resp h => Option.noConfusion h⟩
  | none =>
    rw [Request_ensure_ok c m p b q env herr]
    exact ⟨requestAfterToken_xor _ _ m p b q env,
      fun resp h => requestAfterToken_response_fields _ _ m p b q env resp h⟩

/-- Witness for C8 on a concrete successful GET dispatch. -/
theorem c8_witness :
    ((RapidClient.Request
        { baseURL := "http://b", key := "k", secret := "s", userWebToken := "",
          token := some ⟨"tok", 3600, "Bearer", "", 1000⟩, xAuthorization := "" }
        "GET" "/w" .noBody []
        { now := 0, tokenNet := .resp 200 none, parseTime := 0,
          targetNet := some ⟨200, [("h", "v")], "{}"⟩, elapsed := 1 }).response.isSome ↔
      (RapidClient.Request
        { baseURL := "http://b", key := "k", secret := "s", userWebToken := "",
          token := some ⟨"tok", 3600, "Bearer", "", 1000⟩, xAuthorization := "" }
        "GET" "/w" .noBody []
        { now := 0, tokenNet := .resp 200 none, parseTime := 0,
          targetNet := some ⟨200, [("h", "v")], "{}"⟩, elapsed := 1 }).error = none) ∧
    ({ body := "{}", status := 200, headers := [("h", "v")], error := none,
       responseTime := 1, requestURL := "http://b/w" } : Response).error = none :=
  ⟨(c8_response_xor_error
      { baseURL := "http://b", key := "k", secret := "s", userWebToken := "",
        token := some ⟨"tok", 3600, "Bearer", "", 1000⟩, xAuthorization := "" }
      "GET" "/w" .noBody []
      { now := 0, tokenNet := .resp 200 none, parseTime := 0,
        targetNet := some ⟨200, [("h", "v")], "{}"⟩, elapsed := 1 }).1,
   ((c8_response_xor_error
      { baseURL := "http://b", key := "k", secret := "s", userWebToken := "",
        token := some ⟨"tok", 3600, "Bearer", "", 1000⟩, xAuthorization := "" }
      "GET" "/w" .noBody []
      { now := 0, tokenNet := .resp 200 none, parseTime := 0,
        targetNet := some ⟨200, [("h", "v")], "{}"⟩, elapsed := 1 }).2
     { body := "{}", status := 200, headers := [("h", "v")], error := none,
       responseTime := 1, requestURL := "http://b/w" } (by decide)).1⟩

/-!  C10: the stored base URL is slash-trimmed and never mutated. -/

theorem hasDoubleSlash_cons (c : Char) (l : List Char) (h : c ≠ '/') :
    hasDoubleSlash (c :: l) = hasDoubleSlash l := by
  cases l <;> simp [hasDoubleSlash, h]

theorem hasDoubleSlash_append_of_getLast (l r : List Char) (h : l.getLast? ≠ some '/') :
    hasDoubleSlash (l ++ r) = (hasDoubleSlash l || hasDoubleSlash r) := by
  induction l with
  | nil => simp [hasDoubleSlash]
  | cons a t ih =>
    cases t with
    | nil =>
      have ha : a ≠ '/' := by
        intro hc
        exact h (by rw [hc]; rfl)
      rw [List.singleton_append, hasDoubleSlash_cons a r ha]
      simp [hasDoubleSlash]
    | cons b t2 =>
      have h2 : (b :: t2).getLast? ≠ some '/' := by
        intro hc
        exact h (by rw [List.getLast?_cons_cons]; exact hc)
      rw [List.cons_append, List.cons_append]
      show ((decide (a = '/') && decide (b = '/')) || hasDoubleSlash (b :: (t2 ++ r))) = _
      rw [show (b :: (t2 ++ r)) = (b :: t2) ++ r from rfl, ih h2]
      show _ = ((decide (a = '/') && decide (b = '/')) || hasDoubleSlash (b :: t2) || hasDoubleSlash r)
      rw [Bool.or_assoc]

theorem trimRightSlashes_getLast (s : String) :
    (trimRightSlashes s).data.getLast? ≠ some '/' := by
  show ((s.data.reverse.dropWhile (fun c => decide (c = '/'))).reverse).getLast? ≠ some '/'
  rw [List.getLast?_reverse]
  generalize s.data.reverse = l
  induction l with
  | nil => simp [List.dropWhile]
  | cons a t ih =>
    by_cases ha : a = '/'
    · simpa [List.dropWhile, ha] using ih
    · simp [List.dropWhile, ha]

/-- C10: a constructed client stores the configured base URL with all
trailing slashes stripped, so it never ends in a slash and appending the
"/token" endpoint introduces no doubled separator; and no client operation
ever mutates the stored base URL. -/
theorem c10_baseurl_trimmed_and_immutable (b k s w : String) (c : RapidClient)
    (h : NewRapidClient b k s w = (.ok c, [])) :
    (c.baseURL = trimRightSlashes b ∧
     c.baseURL.data.getLast? ≠ some '/' ∧
     hasDoubleSlash (c.baseURL ++ tokenEndpoint).data = hasDoubleSlash c.baseURL.data ∧
     (∀ (isRefresh : Bool) (net : TokenNetResult) (pt : Instant),
       (c.generateOrRefreshToken isRefresh net pt).calls =
         [.tokenExchange isRefresh (c.baseURL ++ tokenEndpoint)
           (c.generateParameters isRefresh)])) ∧
    ((∀ (c2 : RapidClient) (isRefresh : Bool) (net : TokenNetResult) (pt : Instant),
       (c2.generateOrRefreshToken isRefresh net pt).client.baseURL = c2.baseURL) ∧
     (∀ (c2 : RapidClient) (net : TokenNetResult) (pt : Instant),
       (c2.GenerateToken net pt).client.baseURL = c2.baseURL ∧
       (c2.RefreshToken net pt).client.baseURL = c2.baseURL) ∧
     (∀ (c2 : RapidClient) (now : Instant) (net : TokenNetResult) (pt : Instant),
       (c2.ensureValidToken now net pt).client.baseURL = c2.baseURL) ∧
     (∀ (c2 : RapidClient) (m p : String) (bd : ReqBody)
         (q : List (String × String)) (env : RequestEnv),
       (c2.Request m p bd q env).client.baseURL = c2.baseURL) ∧
     (∀ (c2 : RapidClient) (p : String) (q : List (String × String)) (env : RequestEnv),
       (c2.Get p q env).client.baseURL = c2.baseURL) ∧
     (∀ (c2 : RapidClient) (p : String) (bd : Option String) (env : RequestEnv),
       (c2.Post p bd env).client.baseURL = c2.baseURL ∧
       (c2.Put p bd env).client.baseURL = c2.baseURL) ∧
     (∀ (c2 : RapidClient) (p : String) (env : RequestEnv),
       (c2.Delete p env).client.baseURL = c2.baseURL)) := by
  have hb2 : c.baseURL = trimRightSlashes b := by
    unfold NewRapidClient at h
    split at h
    · exact absurd (congrArg Prod.fst h) (by simp)
    · have h1 := congrArg Prod.fst h
      simp only at h1
      rw [← Except.ok.inj h1]
  constructor
  · refine ⟨hb2, ?_, ?_, ?_⟩
    · rw [hb2]
      exact trimRightSlashes_getLast b
    · show hasDoubleSlash (c.baseURL.data ++ tokenEndpoint.data) = _
      rw [hb2, hasDoubleSlash_append_of_getLast _ _ (trimRightSlashes_getLast b)]
      rw [show hasDoubleSlash tokenEndpoint.data = false from rfl]
      exact Bool.or_false _
    · intro isRefresh net pt
      exact generateOrRefreshToken_calls c isRefresh net pt
  · refine ⟨fun c2 ir net pt => (generateOrRefreshToken_preserves c2 ir net pt).1,
      fun c2 net pt => ⟨(generateOrRefreshToken_preserves c2 false net pt).1,
        (generateOrRefreshToken_preserves c2 true net pt).1⟩,
      fun c2 now net pt => (ensureValidToken_preserves c2 now net pt).1,
      fun c2 m p bd q env => (Request_preserves c2 m p bd q env).1,
      fun c2 p q env => (Request_preserves c2 "GET" p .noBody q env).1,
      fun c2 p bd env => ⟨(Request_preserves c2 "POST" p (.withBody bd) [] env).1,
        (Request_preserves c2 "PUT" p (.withBody bd) [] env).1⟩,
      fun c2 p env => (Request_preserves c2 "DELETE" p .noBody [] env).1⟩

/-- Witness for C10: constructing from a base URL with three trailing
slashes stores the slash-free base. -/
theorem c10_witness :
    RapidClient.baseURL
      { baseURL := "http://b", key := "k", secret := "s", userWebToken := "",
        token := none, xAuthorization := "" } = trimRightSlashes "http://b///" ∧
    RapidClient.baseURL
      { baseURL := "http://b", key := "k", secret := "s", userWebToken := "",
        token := none, xAuthorization := "" } = "http://b" :=
  ⟨((c10_baseurl_trimmed_and_immutable "http://b///" "k" "s" ""
      { baseURL := "http://b", key := "k", secret := "s", userWebToken := "",
        token := none, xAuthorization := "" } (by rfl)).1).1,
   by decide⟩

/-!  C9: lexical properties of the path join. -/

theorem splitSlash_ne_nil (l : List Char) : splitSlash l ≠ [] := by
  induction l with
  | nil => simp [splitSlash]
  | cons c cs ih =>
    by_cases hc : c = '/'
    · simp [splitSlash, hc]
    · simp only [splitSlash, hc, if_false]
      cases h : splitSlash cs with
      | nil => exact absurd h ih
      | cons s rest => simp

theorem splitSlash_cons_of_ne (c : Char) (cs : List Char) (hc : c ≠ '/') :
    ∃ s rest, splitSlash cs = s :: rest ∧ splitSlash (c :: cs) = (c :: s) :: rest := by
  cases h : splitSlash cs with
  | nil => exact absurd h (splitSlash_ne_nil cs)
  | cons s rest =>
    refine ⟨s, rest, rfl, ?_⟩
    simp [splitSlash, hc, h]

theorem splitSlash_append (a b : List Char) :
    splitSlash (a ++ '/' :: b) = splitSlash a ++ splitSlash b := by
  induction a with
  | nil => simp [splitSlash]
  | cons c cs ih =>
    by_cases hc : c = '/'
    · simp [splitSlash, hc, ih]
    · obtain ⟨s, rest, h1, h2⟩ := splitSlash_cons_of_ne c cs hc
      have h1b : splitSlash (cs ++ '/' :: b) = s :: (rest ++ splitSlash b) := by
        rw [ih, h1]; rfl
      simp [splitSlash, hc, h1b, h2, h1]

theorem comps_append (a b : List Char) : comps (a ++ '/' :: b) = comps a ++ comps b := by
  unfold comps
  rw [splitSlash_append, List.filter_append]

theorem comps_slash (b : List Char) : comps ('/' :: b) = comps b := by
  have h := comps_append [] b
  simpa using h

theorem mem_splitSlash_no_slash (l : List Char) (s : List Char) (hs : s ∈ splitSlash l) :
    '/' ∉ s := by
  induction l generalizing s with
  | nil =>
    simp [splitSlash] at hs
    subst hs
    simp
  | cons c cs ih =>
    by_cases hc : c = '/'
    · simp [splitSlash, hc] at hs
      rcases hs with hs | hs
      · subst hs; simp
      · exact ih s hs
    · obtain ⟨s0, rest0, h1, h2⟩ := splitSlash_cons_of_ne c cs hc
      rw [h2] at hs
      rcases List.mem_cons.mp hs with hs | hs
      · subst hs
        intro hmem
        rcases List.mem_cons.mp hmem with hmem | hmem
        · exact hc hmem.symm
        · exact ih s0 (by rw [h1]; exact List.mem_cons_self s0 rest0) hmem
      · exact ih s (by rw [h1]; exact List.mem_cons_of_mem s0 hs)

theorem mem_comps_props (l : List Char) (s : List Char) (hs : s ∈ comps l) :
    s ≠ [] ∧ '/' ∉ s := by
  obtain ⟨hmem, hreal⟩ := List.mem_filter.mp hs
  refine ⟨?_, mem_splitSlash_no_slash l s hmem⟩
  intro hc
  subst hc
  simp [isRealSeg] at hreal

theorem cleanSegs_no_dotdot (rooted : Bool) (acc segs : List (List Char))
    (h : ∀ s ∈ segs, s ≠ ['.', '.']) :
    cleanSegs rooted acc segs = acc.reverse ++ segs := by
  induction segs generalizing acc with
  | nil => simp [cleanSegs]
  | cons s rest ih =>
    have hs := h s (List.mem_cons_self s rest)
    simp only [cleanSegs]
    rw [if_neg hs, ih (s :: acc) (fun x hx => h x (List.mem_cons_of_mem s hx))]
    rw [List.reverse_cons, List.append_assoc]
    rfl

theorem interSlash_cons_head (c : Char) (cs : List Char) (rest : List (List Char)) :
    ∃ t, interSlash ((c :: cs) :: rest) = c :: t := by
  cases rest with
  | nil => exact ⟨cs, rfl⟩
  | cons r rs => exact ⟨cs ++ '/' :: interSlash (r :: rs), rfl⟩

theorem urlPathPart_cleanChars (l : List Char) (hl : l ≠ [])
    (hnd : ∀ s ∈ comps l, s ≠ ['.', '.']) (hcne : comps l ≠ []) :
    urlPathPart (cleanChars l) = '/' :: interSlash (comps l) := by
  obtain ⟨c, cs, rfl⟩ := List.exists_cons_of_ne_nil hl
  simp only [cleanChars]
  rw [cleanSegs_no_dotdot _ _ _ hnd]
  simp only [List.reverse_nil, List.nil_append]
  rw [if_neg hcne]
  by_cases hc : c = '/'
  · simp only [hc, decide_True, if_true]
    rfl
  · simp only [hc, decide_False, if_false, Bool.false_eq_true]
    obtain ⟨s, rest, hcomps⟩ : ∃ s rest, comps (c :: cs) = s :: rest := by
      cases h : comps (c :: cs) with
      | nil => exact absurd h hcne
      | cons x y => exact ⟨x, y, rfl⟩
    obtain ⟨hne2, hns⟩ := mem_comps_props (c :: cs) s (by rw [hcomps]; exact List.mem_cons_self s rest)
    obtain ⟨d, ds, rfl⟩ := List.exists_cons_of_ne_nil hne2
    have hd : d ≠ '/' := fun hcd => hns (hcd ▸ List.mem_cons_self d ds)
    obtain ⟨t, hti⟩ := interSlash_cons_head d ds rest
    rw [hcomps, hti]
    simp [urlPathPart, hd]

theorem joinChars_eq (p q : List Char)
    (hp : ∀ s ∈ comps p, s ≠ ['.', '.']) (hq : ∀ s ∈ comps q, s ≠ ['.', '.'])
    (hqne : comps q ≠ []) :
    urlPathPart (joinChars p q) = '/' :: interSlash (comps p ++ comps q) := by
  have hqnil : q ≠ [] := by
    intro h
    subst h
    exact hqne rfl
  cases p with
  | nil =>
    have hj : joinChars [] q = cleanChars q := by
      cases q with
      | nil => exact absurd rfl hqnil
      | cons a b => rfl
    rw [hj, urlPathPart_cleanChars q hqnil hq hqne]
    rfl
  | cons a as =>
    cases q with
    | nil => exact absurd rfl hqnil
    | cons b bs =>
      have hj : joinChars (a :: as) (b :: bs) =
          cleanChars ((a :: as) ++ '/' :: (b :: bs)) := rfl
      have hnd2 : ∀ s ∈ comps ((a :: as) ++ '/' :: (b :: bs)), s ≠ ['.', '.'] := by
        rw [comps_append]
        intro s hs
        rcases List.mem_append.mp hs with h | h
        exacts [hp s h, hq s h]
      have hne2 : comps ((a :: as) ++ '/' :: (b :: bs)) ≠ [] := by
        rw [comps_append]
        intro hcontra
        exact hqne (List.append_eq_nil.mp hcontra).2
      rw [hj, urlPathPart_cleanChars _ (by simp) hnd2 hne2, comps_append]

theorem hds_no_slash (l : List Char) (h : '/' ∉ l) : hasDoubleSlash l = false := by
  induction l with
  | nil => rfl
  | cons a t ih =>
    have ha : a ≠ '/' := fun hc => h (hc ▸ List.mem_cons_self a t)
    rw [hasDoubleSlash_cons a t ha]
    exact ih (fun hm => h (List.mem_cons_of_mem a hm))

theorem hds_append_no_slash (s l : List Char) (h : '/' ∉ s) :
    hasDoubleSlash (s ++ l) = hasDoubleSlash l := by
  induction s with
  | nil => rfl
  | cons a t ih =>
    have ha : a ≠ '/' := fun hc => h (hc ▸ List.mem_cons_self a t)
    rw [List.cons_append, hasDoubleSlash_cons a _ ha]
    exact ih (fun hm => h (List.mem_cons_of_mem a hm))

theorem hds_of_cons (a : Char) (x : List Char) (h : hasDoubleSlash (a :: x) = false) :
    hasDoubleSlash x = false := by
  cases x with
  | nil => rfl
  | cons b t =>
    have h2 : ((decide (a = '/') && decide (b = '/')) || hasDoubleSlash (b :: t)) = false := h
    exact (Bool.or_eq_false_iff.mp h2).2

theorem hds_slash_interSlash (segs : List (List Char))
    (h : ∀ s ∈ segs, s ≠ [] ∧ '/' ∉ s) :
    hasDoubleSlash ('/' :: interSlash segs) = false := by
  induction segs with
  | nil => rfl
  | cons s rest ih =>
    obtain ⟨hne2, hns⟩ := h s (List.mem_cons_self s rest)
    obtain ⟨d, ds, rfl⟩ := List.exists_cons_of_ne_nil hne2
    have hd : d ≠ '/' := fun hc => hns (hc ▸ List.mem_cons_self d ds)
    have hds2 : '/' ∉ ds := fun hm => hns (List.mem_cons_of_mem d hm)
    cases rest with
    | nil =>
      show hasDoubleSlash ('/' :: d :: ds) = false
      rw [show hasDoubleSlash ('/' :: d :: ds) =
          ((decide (('/' : Char) = '/') && decide (d = '/')) || hasDoubleSlash (d :: ds)) from rfl]
      rw [hasDoubleSlash_cons d ds hd, hds_no_slash ds hds2]
      simp [hd]
    | cons r rs =>
      show hasDoubleSlash ('/' :: ((d :: ds) ++ '/' :: interSlash (r :: rs))) = false
      rw [show ('/' :: ((d :: ds) ++ '/' :: interSlash (r :: rs))) =
          '/' :: d :: (ds ++ '/' :: interSlash (r :: rs)) from rfl]
      rw [show hasDoubleSlash ('/' :: d :: (ds ++ '/' :: interSlash (r :: rs))) =
          ((decide (('/' : Char) = '/') && decide (d = '/')) ||
            hasDoubleSlash (d :: (ds ++ '/' :: interSlash (r :: rs)))) from rfl]
      have hmid : hasDoubleSlash (d :: (ds ++ '/' :: interSlash (r :: rs))) =
          hasDoubleSlash ('/' :: interSlash (r :: rs)) := by
        rw [show (d :: (ds ++ '/' :: interSlash (r :: rs))) =
            (d :: ds) ++ '/' :: interSlash (r :: rs) from rfl]
        exact hds_append_no_slash _ _ hns
      rw [hmid, ih (fun x hx => h x (List.mem_cons_of_mem _ hx))]
      simp [hd]

theorem hds_cleanChars (l : List Char) (hl : l ≠ [])
    (hnd : ∀ s ∈ comps l, s ≠ ['.', '.']) :
    hasDoubleSlash (cleanChars l) = false := by
  obtain ⟨c, cs, rfl⟩ := List.exists_cons_of_ne_nil hl
  simp only [cleanChars]
  rw [cleanSegs_no_dotdot _ _ _ hnd]
  simp only [List.reverse_nil, List.nil_append]
  by_cases hseg : comps (c :: cs) = []
  · rw [if_pos hseg]
    split <;> decide
  · rw [if_neg hseg]
    have hprops : ∀ s ∈ comps (c :: cs), s ≠ [] ∧ '/' ∉ s :=
      fun s hs => mem_comps_props (c :: cs) s hs
    by_cases hc : c = '/'
    · subst hc
      simp only [decide_True, if_true]
      exact hds_slash_interSlash _ hprops
    · simp only [hc, decide_False, if_false, Bool.false_eq_true]
      exact hds_of_cons '/' _ (hds_slash_interSlash _ hprops)

theorem hds_joinChars (p q : List Char)
    (hp : ∀ s ∈ comps p, s ≠ ['.', '.']) (hq : ∀ s ∈ comps q, s ≠ ['.', '.']) :
    hasDoubleSlash (joinChars p q) = false := by
  cases p with
  | nil =>
    cases q with
    | nil => rfl
    | cons b bs => exact hds_cleanChars _ (by simp) hq
  | cons a as =>
    cases q with
    | nil => exact hds_cleanChars _ (by simp) hp
    | cons b bs =>
      refine hds_cleanChars ((a :: as) ++ '/' :: (b :: bs)) (by simp) ?_
      rw [comps_append]
      intro s hs
      rcases List.mem_append.mp hs with h | h
      exacts [hp s h, hq s h]

theorem URL_toString_host (scheme host p0 : String) (hhost : host ≠ "") :
    URL.toString { scheme := scheme, host := host, path := p0, rawQuery := "" } =
      ((if scheme ≠ "" then scheme ++ ":" else "") ++ ("//" ++ host)) ++
        String.mk (urlPathPart p0.data) := by
  show ((if scheme ≠ "" then scheme ++ ":" else "") ++ (if host ≠ "" then "//" ++ host else "")
      ++ (if host ≠ "" then String.mk (urlPathPart p0.data) else p0)
      ++ (if ("" : String) ≠ "" then "?" ++ "" else "")) = _
  rw [if_neg (show ¬(("" : String) ≠ "") from fun hcon => hcon rfl)]
  rw [String.append_empty, if_pos hhost, if_pos hhost]

theorem URL_toString_congr (scheme host p1 p2 : String) (hhost : host ≠ "")
    (h : urlPathPart p1.data = urlPathPart p2.data) :
    URL.toString { scheme := scheme, host := host, path := p1, rawQuery := "" } =
      URL.toString { scheme := scheme, host := host, path := p2, rawQuery := "" } := by
  rw [URL_toString_host scheme host p1 hhost, URL_toString_host scheme host p2 hhost, h]

/-- C9 counterexample: the claim fails as stated. With base
"http://api.example.com", the request paths "" and "/" differ only in a
leading slash, yet dispatch resolves them to the different URLs
"http://api.example.com" and "http://api.example.com/" (filepath.Join
collapses an all-slash join to "/" but maps the empty join to ""). -/
theorem c9_counterexample :
    (RapidClient.Request
      { baseURL := "http://api.example.com", key := "k", secret := "s", userWebToken := "",
        token := some ⟨"tok", 3600, "Bearer", "", 1000⟩, xAuthorization := "" }
      "GET" "" .noBody []
      { now := 0, tokenNet := .resp 200 none, parseTime := 0,
        targetNet := some ⟨200, [], "{}"⟩, elapsed := 1 }).response.map Response.requestURL ≠
    (RapidClient.Request
      { baseURL := "http://api.example.com", key := "k", secret := "s", userWebToken := "",
        token := some ⟨"tok", 3600, "Bearer", "", 1000⟩, xAuthorization := "" }
      "GET" "/" .noBody []
      { now := 0, tokenNet := .resp 200 none, parseTime := 0,
        targetNet := some ⟨200, [], "{}"⟩, elapsed := 1 }).response.map Response.requestURL := by
  decide

/-- C9 (amended): for every base URL with a non-empty host and every request
path, provided neither path component contains a ".." segment and the
request path has at least one real (non-empty, non-".") segment, the
resolved request URL is invariant under adding a trailing slash to the base
path and/or a leading slash to the request path, and the joined path
contains no duplicated separators. -/
theorem c9_join_slash_invariance (scheme host p q : String)
    (hhost : host ≠ "")
    (hp : ∀ s ∈ comps p.data, s ≠ ['.', '.'])
    (hq : ∀ s ∈ comps q.data, s ≠ ['.', '.'])
    (hqne : comps q.data ≠ []) :
    (URL.toString
        { scheme := scheme, host := host, path := filepathJoin p q, rawQuery := "" } =
      URL.toString
        { scheme := scheme, host := host, path := filepathJoin (p ++ "/") q, rawQuery := "" } ∧
     URL.toString
        { scheme := scheme, host := host, path := filepathJoin p q, rawQuery := "" } =
      URL.toString
        { scheme := scheme, host := host, path := filepathJoin p ("/" ++ q), rawQuery := "" } ∧
     URL.toString
        { scheme := scheme, host := host, path := filepathJoin p q, rawQuery := "" } =
      URL.toString
        { scheme := scheme, host := host, path := filepathJoin (p ++ "/") ("/" ++ q), rawQuery := "" }) ∧
    hasDoubleSlash (filepathJoin p q).data = false := by
  have hpslash : (p ++ "/").data = p.data ++ ['/'] := by
    rw [String.data_append]
  have hqslash : ("/" ++ q).data = '/' :: q.data := by
    rw [String.data_append]
    rfl
  have hcp : comps (p.data ++ ['/']) = comps p.data := by
    have h := comps_append p.data []
    rw [show comps ([] : List Char) = [] from rfl, List.append_nil] at h
    exact h
  have hcq : comps ('/' :: q.data) = comps q.data := comps_slash q.data
  have e0 := joinChars_eq p.data q.data hp hq hqne
  have e1 : urlPathPart (joinChars (p ++ "/").data q.data) =
      '/' :: interSlash (comps p.data ++ comps q.data) := by
    rw [hpslash, joinChars_eq (p.data ++ ['/']) q.data (by rw [hcp]; exact hp) hq hqne, hcp]
  have e2 : urlPathPart (joinChars p.data ("/" ++ q).data) =
      '/' :: interSlash (comps p.data ++ comps q.data) := by
    rw [hqslash, joinChars_eq p.data ('/' :: q.data) hp (by rw [hcq]; exact hq)
      (by rw [hcq]; exact hqne), hcq]
  have e3 : urlPathPart (joinChars (p ++ "/").data ("/" ++ q).data) =
      '/' :: interSlash (comps p.data ++ comps q.data) := by
    rw [hpslash, hqslash, joinChars_eq (p.data ++ ['/']) ('/' :: q.data)
      (by rw [hcp]; exact hp) (by rw [hcq]; exact hq) (by rw [hcq]; exact hqne), hcp, hcq]
  refine ⟨⟨?_, ?_, ?_⟩, ?_⟩
  · exact URL_toString_congr scheme host _ _ hhost (by
      show urlPathPart (joinChars p.data q.data) = urlPathPart (joinChars (p ++ "/").data q.data)
      rw [e0, e1])
  · exact URL_toString_congr scheme host _ _ hhost (by
      show urlPathPart (joinChars p.data q.data) = urlPathPart (joinChars p.data ("/" ++ q).data)
      rw [e0, e2])
  · exact URL_toString_congr scheme host _ _ hhost (by
      show urlPathPart (joinChars p.data q.data) =
        urlPathPart (joinChars (p ++ "/").data ("/" ++ q).data)
      rw [e0, e3])
  · show hasDoubleSlash (joinChars p.data q.data) = false
    exact hds_joinChars p.data q.data hp hq

/-- Witness for the amended C9 at base path "" and request path "widgets". -/
theorem c9_witness :
    URL.toString
        { scheme := "http", host := "api.example.com", path := filepathJoin "" "widgets",
          rawQuery := "" } =
      URL.toString
        { scheme := "http", host := "api.example.com", path := filepathJoin ("" ++ "/") "widgets",
          rawQuery := "" } ∧
    hasDoubleSlash (filepathJoin "" "widgets").data = false :=
  ⟨((c9_join_slash_invariance "http" "api.example.com" "" "widgets"
      (by decide) (by decide) (by decide) (by decide)).1).1,
   (c9_join_slash_invariance "http" "api.example.com" "" "widgets"
      (by decide) (by decide) (by decide) (by decide)).2⟩

end GoRapid
